import Mathlib

/-!
Verification of the streaming-to-speech pipeline of `sollama.py`
(Ollama TTS Assistant).

The development shallowly embeds the pieces of the program that the
specification talks about:

* `extract_sentences` — the sentence segmenter (`OllamaTTS.extract_sentences`),
  a scan for the Python regex `[.!?]+[\s\n]*` over a text buffer, returning
  the complete sentences and the stripped remainder;
* the streaming loop of `OllamaTTS.ask_ollama_with_context` that feeds
  fragments through the segmenter and enqueues speech jobs;
* `ConversationMemory` with `add_exchange`, `save_memory`, `load_memory`,
  keeping Python's dynamic typing for the fields that a loaded JSON file
  can overwrite;
* a small-step interleaving model of the TTS worker thread
  (`tts_worker`, `start_tts_thread`, `stop_tts_thread`, `tts_queue.join`).

Strings are modelled as `List Char`.  Python `str.strip()` and the regex
class `\s` are modelled on the ASCII whitespace characters.
-/

namespace Sollama

/-- The sentence-terminator characters of the regex class `[.!?]`
in `OllamaTTS.extract_sentences`. -/
def isTerminator (c : Char) : Bool :=
  c = '.' || c = '!' || c = '?'

/-- Whitespace as matched by the regex class `[\s\n]` and stripped by
Python `str.strip()` (ASCII subset). -/
def isSpaceChar (c : Char) : Bool :=
  c = ' ' || c = '\t' || c = '\n' || c = '\r' || c = '\x0b' || c = '\x0c'

/-- Python `str.strip()`: drop leading and trailing whitespace. -/
def stripChars (l : List Char) : List Char :=
  ((l.dropWhile isSpaceChar).reverse.dropWhile isSpaceChar).reverse

/-- Scanner mode while replaying `re.finditer(r'[.!?]+[\s\n]*', text_buffer)`:
`text p` = inside ordinary text, `p` is the slice since the previous match
end; `term s` = inside the `[.!?]+` run, `s` is the whole prospective
sentence slice so far; `ws s` = inside the trailing `[\s\n]*` run. -/
inductive ScanMode where
  | text (p : List Char)
  | term (s : List Char)
  | ws (s : List Char)
deriving DecidableEq

/-- One left-to-right pass of the `finditer` loop in
`OllamaTTS.extract_sentences`: at each match end the slice since the
previous match end is stripped and emitted (if non-empty); the text after
the last match is returned as the raw remainder. -/
def scanSentences (mode : ScanMode) : List Char → List (List Char) × List Char
  | [] =>
    match mode with
    | .text p => ([], p)
    | .term s => (if stripChars s = [] then [] else [stripChars s], [])
    | .ws s => (if stripChars s = [] then [] else [stripChars s], [])
  | c :: rest =>
    match mode with
    | .text p =>
      if isTerminator c then scanSentences (.term (p ++ [c])) rest
      else scanSentences (.text (p ++ [c])) rest
    | .term s =>
      if isTerminator c then scanSentences (.term (s ++ [c])) rest
      else if isSpaceChar c then scanSentences (.ws (s ++ [c])) rest
      else
        let r := scanSentences (.text [c]) rest
        ((if stripChars s = [] then [] else [stripChars s]) ++ r.1, r.2)
    | .ws s =>
      if isSpaceChar c then scanSentences (.ws (s ++ [c])) rest
      else if isTerminator c then
        let r := scanSentences (.term [c]) rest
        ((if stripChars s = [] then [] else [stripChars s]) ++ r.1, r.2)
      else
        let r := scanSentences (.text [c]) rest
        ((if stripChars s = [] then [] else [stripChars s]) ++ r.1, r.2)

/-- Model of `OllamaTTS.extract_sentences(text_buffer)`: the list of complete
sentences (each `strip()`ped) and the `strip()`ped remaining text. -/
def extract_sentences (text_buffer : List Char) : List (List Char) × List Char :=
  let r := scanSentences (.text []) text_buffer
  (r.1, stripChars r.2)

/-- The fragment-by-fragment use of the segmenter in the streaming loop of
`ask_ollama_with_context`: each fragment is appended to the carried buffer,
the segmenter runs, and the returned remainder becomes the next buffer. -/
def feedFragments (frags : List (List Char)) : List (List Char) × List Char :=
  frags.foldl
    (fun acc frag =>
      let r := extract_sentences (acc.2 ++ frag)
      (acc.1 ++ r.1, r.2))
    ([], [])

/-- All sentences produced by streaming the fragments one at a time and
finally flushing the residual buffer (the `done` branch speaks
`text_buffer` when `text_buffer.strip()` is non-empty). -/
def segmentStream (frags : List (List Char)) : List (List Char) :=
  let r := feedFragments frags
  r.1 ++ (if r.2 = [] then [] else [r.2])

/-- All sentences produced by running the segmenter once on the whole text
and flushing the residual. -/
def segmentWhole (text : List Char) : List (List Char) :=
  let r := extract_sentences text
  r.1 ++ (if r.2 = [] then [] else [r.2])

/-! ## The streaming loop of `ask_ollama_with_context`

One decoded stream line: the optional `response` text and the `done`
flag (`chunk.get('done', False)`). -/

/-- A successfully JSON-decoded stream chunk. -/
structure StreamChunk where
  response : Option (List Char)
  done : Bool
deriving DecidableEq

/-- One event observed while iterating `response.iter_lines()`:
a line (decoding to `some` chunk, or `none` on `json.JSONDecodeError`,
which the loop skips), or a transport-level failure raised by the
iteration (`requests.exceptions.RequestException`). -/
inductive StreamEvent where
  | line (chunk : Option StreamChunk)
  | transportError (msg : List Char)
deriving DecidableEq

/-- Model of `speak_text_immediate(text)`: it enqueues `text.strip()` when it is
non-empty (TTS available and not muted). `spoken` is the queue push log. -/
def speakImmediate (spoken : List (List Char)) (t : List Char) : List (List Char) :=
  if stripChars t = [] then spoken else spoken ++ [stripChars t]

/-- The `for line in response.iter_lines()` loop of
`ask_ollama_with_context` in streaming mode, with accumulators
`full_response`, `text_buffer` and the log of texts pushed to the TTS
queue.  `speaking` is `speak_while_streaming and tts_available` (muted is
false).  A transport failure is re-raised as
`Exception(f"API request failed: {e}")`, discarding the accumulators;
on `done` (or end of stream) the result is `full_response.strip()`. -/
def streamLoop (speaking : Bool) (full text_buffer : List Char)
    (spoken : List (List Char)) :
    List StreamEvent → Except (List Char) (List Char × List (List Char))
  | [] => .ok (stripChars full, spoken)
  | .transportError msg :: _ => .error ("API request failed: ".toList ++ msg)
  | .line none :: rest => streamLoop speaking full text_buffer spoken rest
  | .line (some chunk) :: rest =>
    let st :=
      match chunk.response with
      | some text_chunk =>
        let full1 := full ++ text_chunk
        let buf1 := text_buffer ++ text_chunk
        if speaking then
          let r := extract_sentences buf1
          (full1, r.2,
            r.1.foldl (fun sp s => if stripChars s = [] then sp else speakImmediate sp s)
              spoken)
        else (full1, buf1, spoken)
      | none => (full, text_buffer, spoken)
    if chunk.done then
      .ok (stripChars st.1,
        if speaking && !(stripChars st.2.1).isEmpty then speakImmediate st.2.2 st.2.1
        else st.2.2)
    else streamLoop speaking st.1 st.2.1 st.2.2 rest

/-- A whole streaming turn of `ask_ollama_with_context`
(`use_streaming = True`): returns the answer text and the TTS push log,
or the raised exception message. -/
def runStream (speaking : Bool) (events : List StreamEvent) :
    Except (List Char) (List Char × List (List Char)) :=
  streamLoop speaking [] [] [] events

/-! ## `ConversationMemory`

Python is dynamically typed and `load_memory` assigns whatever JSON
values the file holds to the memory's attributes, so the fields that a
loaded file can overwrite are modelled as JSON values. -/

/-- A JSON value as produced by `json.load` / consumed by `json.dump`. -/
inductive JVal where
  | jnull
  | jbool (b : Bool)
  | jnum (n : Int)
  | jstr (s : List Char)
  | jarr (elems : List JVal)
  | jobj (fields : List (List Char × JVal))

/-- Python `len(v)` : defined for strings, lists and dicts, a `TypeError`
for the other JSON values. -/
def JVal.pyLen : JVal → Option Nat
  | .jstr s => some s.length
  | .jarr l => some l.length
  | .jobj fs => some fs.length
  | _ => none

/-- Python `dict.get(key, default)` on a decoded JSON object. -/
def jsonGet (fields : List (List Char × JVal)) (key : List Char) (dflt : JVal) : JVal :=
  (List.lookup key fields).getD dflt

/-- The state of a `ConversationMemory` object.  `conversation_start_time`
is an abstract timestamp (a `datetime` is modelled as a natural number,
`isoformat` as its decimal digits). -/
structure ConversationMemory where
  system_prompt : JVal
  conversation_history : JVal
  max_history : Nat
  conversation_start_time : Nat

/-- `ConversationMemory.get_default_system_prompt()` (abbreviated text). -/
def get_default_system_prompt : List Char :=
  "You are a helpful AI assistant with text-to-speech capabilities.".toList

/-- Model of `ConversationMemory.__init__(system_prompt, max_history)` at time
`now`; `system_prompt or self.get_default_system_prompt()` falls back to
the default when the argument is `None` or empty. -/
def memoryInit (system_prompt : Option (List Char)) (max_history : Nat)
    (now : Nat) : ConversationMemory :=
  { system_prompt := .jstr
      (match system_prompt with
       | some s => if s = [] then get_default_system_prompt else s
       | none => get_default_system_prompt)
    conversation_history := .jarr []
    max_history := max_history
    conversation_start_time := now }

/-- One `{"role": role, "content": content}` entry of
`conversation_history`. -/
def mkMessage (role content : List Char) : JVal :=
  .jobj [("role".toList, .jstr role), ("content".toList, .jstr content)]

/-- Model of `ConversationMemory.add_exchange(user_message, assistant_response)`:
append the user and assistant messages, then drop the oldest pair when
`len(conversation_history) > max_history`.  Returns `none` when
`conversation_history` is not a list (Python would raise
`AttributeError` on `.append`). -/
def add_exchange (m : ConversationMemory) (user_message assistant_response : List Char) :
    Option ConversationMemory :=
  match m.conversation_history with
  | .jarr l =>
    let l1 := l ++ [mkMessage "user".toList user_message,
                    mkMessage "assistant".toList assistant_response]
    let l2 := if m.max_history < l1.length then l1.drop 2 else l1
    some { m with conversation_history := JVal.jarr l2 }
  | _ => none

/-- A sequence of `add_exchange` calls. -/
def addExchanges (m : ConversationMemory) (pairs : List (List Char × List Char)) :
    Option ConversationMemory :=
  pairs.foldlM (fun acc p => add_exchange acc p.1 p.2) m

/-- Model of `datetime.isoformat()` on the abstract timestamp. -/
def isoformat (t : Nat) : List Char :=
  Nat.toDigits 10 t

/-- Model of `datetime.fromisoformat`: it parses the strings `isoformat` produces,
raises (`none`) on anything that is not a non-empty digit string. -/
def fromisoformat (s : List Char) : Option Nat :=
  if s ≠ [] && s.all (·.isDigit) then
    some (s.foldl (fun acc c => 10 * acc + (c.toNat - '0'.toNat)) 0)
  else none

/-- Model of `ConversationMemory.save_memory(filepath)`: the JSON object written
to the file (`saved_at` is the save time `now`). -/
def save_memory (m : ConversationMemory) (now : Nat) : JVal :=
  .jobj [("system_prompt".toList, m.system_prompt),
         ("conversation_history".toList, m.conversation_history),
         ("conversation_start_time".toList, .jstr (isoformat m.conversation_start_time)),
         ("saved_at".toList, .jstr (isoformat now))]

/-- What `load_memory` finds at the file path: no file
(`FileNotFoundError`), unparseable contents (`json.JSONDecodeError`), or
a decoded JSON value. -/
inductive FileRead where
  | missing
  | parseError
  | contents (v : JVal)

/-- Model of `ConversationMemory.load_memory(filepath)` at current time `now`:
returns the `True`/`False` result together with the memory state after
the call.  Mutations happen in Python's statement order: on a decoded
object, `system_prompt` and `conversation_history` are assigned first,
the start-time parse falls back to `now` on any error, and only then does
`len(self.conversation_history) // 2` run — which raises for a
non-sized value, reaching `except Exception` *after* the fields were
already overwritten. -/
def load_memory (m : ConversationMemory) (file : FileRead) (now : Nat) :
    Bool × ConversationMemory :=
  match file with
  | .missing => (false, m)
  | .parseError => (false, m)
  | .contents v =>
    match v with
    | .jobj fields =>
      let sp := jsonGet fields "system_prompt".toList (.jstr get_default_system_prompt)
      let hist := jsonGet fields "conversation_history".toList (.jarr [])
      let t :=
        match jsonGet fields "conversation_start_time".toList (.jstr (isoformat now)) with
        | .jstr ts => (fromisoformat ts).getD now
        | _ => now
      let m1 : ConversationMemory :=
        { m with system_prompt := sp, conversation_history := hist,
                 conversation_start_time := t }
      match hist.pyLen with
      | some _ => (true, m1)
      | none => (false, m1)
    | _ => (false, m)

/-! ## The TTS worker thread

A small-step interleaving model of `tts_worker`, `start_tts_thread`,
`stop_tts_thread` and `tts_queue`.  The worker thread and the main thread
run concurrently; a trace is any interleaving of their atomic steps.
`tts_queue.join(` `)` — the drain used by `ask_ollama_with_context` — and
the blocking `get` are modelled by enabledness: the corresponding label
can only fire in states where the Python call would return. -/

/-- The worker thread's control point inside the `tts_worker` loop:
not yet started, about to test `tts_stop_event`, about to
`tts_queue.get(timeout=0.1)`, about to render a dequeued text, about to
`task_done()`, or terminated (loop exited). -/
inductive WorkerPC where
  | notStarted
  | atCheck
  | atGet
  | doRender (t : List Char)
  | atTaskDone
  | dead
deriving DecidableEq

/-- Whether `tts_thread is None or not tts_thread.is_alive()` is false,
i.e. the worker thread is alive. -/
def workerAlive : WorkerPC → Bool
  | .notStarted => false
  | .dead => false
  | _ => true

/-- The shared state of the TTS subsystem.  `unfinished` is
`tts_queue.unfinished_tasks` (incremented by `put`, decremented by
`task_done`; `join(` `)` blocks until it is zero).  `pushed` and
`rendered` are ghost logs of every text ever enqueued and every text
whose render call completed. -/
structure TTSState where
  queue : List (List Char)
  unfinished : Nat
  stopEvent : Bool
  pc : WorkerPC
  rendered : List (List Char)
  pushed : List (List Char)
deriving DecidableEq

/-- The initial TTS state of `OllamaTTS.__init__`: empty queue, cleared
stop event, no worker thread yet. -/
def initTTS : TTSState :=
  { queue := [], unfinished := 0, stopEvent := false, pc := .notStarted,
    rendered := [], pushed := [] }

/-- One atomic step of either thread:

* `push t` — `speak_text_immediate(t)` on the main thread;
* `wCheck`, `wGet`, `wRender`, `wDone` — the worker's loop steps:
  test the stop event, `get(timeout=0.1)` (returning a job or timing out
  on an empty queue), the `_speak_text_engine` call, `task_done()`;
* `start` — `start_tts_thread()`;
* `stopSet` — the `tts_stop_event.set()` line of `stop_tts_thread()`;
* `purgeOne` — one `get_nowait(); task_done()` iteration of
  `stop_tts_thread()`'s queue-clearing loop (enabled while non-empty);
* `drainJoin` — `tts_queue.join()` returning (enabled only when there
  are no unfinished tasks).

`stop_tts_thread()`'s final `tts_thread.join(timeout=1.0)` is a bounded
wait with no state effect, so it needs no label: the timeout lets the
main thread continue regardless of the worker's progress. -/
inductive TLabel where
  | push (t : List Char)
  | wCheck
  | wGet
  | wRender
  | wDone
  | start
  | stopSet
  | purgeOne
  | drainJoin
deriving DecidableEq

/-- The transition function: `none` when the label is not enabled in the
state (the step cannot be taken there). -/
def ttsStep (s : TTSState) : TLabel → Option TTSState
  | .push t =>
    if stripChars t = [] then some s
    else some { s with queue := s.queue ++ [stripChars t],
                       unfinished := s.unfinished + 1,
                       pushed := s.pushed ++ [stripChars t] }
  | .wCheck =>
    match s.pc with
    | .atCheck => some { s with pc := if s.stopEvent then .dead else .atGet }
    | _ => none
  | .wGet =>
    match s.pc with
    | .atGet =>
      match s.queue with
      | [] => some { s with pc := .atCheck }
      | t :: rest => some { s with queue := rest, pc := .doRender t }
    | _ => none
  | .wRender =>
    match s.pc with
    | .doRender t =>
      some { s with rendered := s.rendered ++ (if t ≠ [] ∧ stripChars t ≠ [] then [t] else []),
                    pc := .atTaskDone }
    | _ => none
  | .wDone =>
    match s.pc with
    | .atTaskDone => some { s with unfinished := s.unfinished - 1, pc := .atCheck }
    | _ => none
  | .start =>
    if workerAlive s.pc then some s
    else some { s with stopEvent := false, pc := .atCheck }
  | .stopSet => some { s with stopEvent := true }
  | .purgeOne =>
    match s.queue with
    | _ :: rest => some { s with queue := rest, unfinished := s.unfinished - 1 }
    | [] => none
  | .drainJoin => if s.unfinished = 0 then some s else none

/-- Run a trace of atomic steps; `none` when some step was not enabled. -/
def runTrace (s : TTSState) (labels : List TLabel) : Option TTSState :=
  labels.foldlM ttsStep s

/-! ## Audio settings commands

The `faster`/`slower` and `louder`/`quieter` branches of
`OllamaTTS.handle_command`.  `volume` is a Python float; the model uses
exact rationals, on which `min`/`max` clamping behaves the same way. -/

/-- The TTS settings touched by the speed/volume commands. -/
structure AudioSettings where
  speech_rate : Int
  volume : ℚ
deriving DecidableEq

/-- The four adjustment commands. -/
inductive AdjustCmd where
  | faster
  | slower
  | louder
  | quieter
deriving DecidableEq

/-- The `faster`/`slower`/`louder`/`quieter` branches of
`handle_command`. -/
def handle_adjust (s : AudioSettings) : AdjustCmd → AudioSettings
  | .faster => { s with speech_rate := min 300 (s.speech_rate + 25) }
  | .slower => { s with speech_rate := max 50 (s.speech_rate - 25) }
  | .louder => { s with volume := min 1 (s.volume + 1/10) }
  | .quieter => { s with volume := max 0 (s.volume - 1/10) }

/-- A sequence of adjustment commands. -/
def handleAdjustSeq (s : AudioSettings) (cmds : List AdjustCmd) : AudioSettings :=
  cmds.foldl handle_adjust s

/-! ## Lemmas about the sentence segmenter -/

/-- Whether a list starts with a sentence terminator. -/
def headTerm : List Char → Bool
  | [] => false
  | c :: _ => isTerminator c

/-- Whether a string is non-empty and ends in one of `.`, `!`, `?`. -/
def endsInTerminator (s : List Char) : Bool :=
  headTerm s.reverse

/-- Drop trailing whitespace only. -/
def stripTrailing (s : List Char) : List Char :=
  (s.reverse.dropWhile isSpaceChar).reverse

lemma isSpaceChar_eq_false_of_isTerminator {c : Char} (h : isTerminator c = true) :
    isSpaceChar c = false := by
  simp only [isTerminator, Bool.or_eq_true, decide_eq_true_eq] at h
  rcases h with (h | h) | h <;> subst h <;> decide

lemma endsInTerminator_append_term {p : List Char} {c : Char}
    (h : isTerminator c = true) : endsInTerminator (p ++ [c]) = true := by
  simp [endsInTerminator, List.reverse_append, headTerm, h]

lemma ne_nil_of_endsInTerminator {s : List Char}
    (h : endsInTerminator s = true) : s ≠ [] := by
  intro hs
  subst hs
  simp [endsInTerminator, headTerm] at h

lemma endsInTerminator_stripTrailing {s : List Char}
    (h : endsInTerminator s = true) : endsInTerminator (stripTrailing s) = true := by
  unfold endsInTerminator headTerm at h
  unfold endsInTerminator stripTrailing
  rw [List.reverse_reverse]
  cases hr : s.reverse with
  | nil => rw [hr] at h; exact absurd h (by simp)
  | cons t r =>
    rw [hr] at h
    have ht : isTerminator t = true := by simpa using h
    rw [List.dropWhile_cons, isSpaceChar_eq_false_of_isTerminator ht]
    simpa [headTerm] using ht

lemma endsInTerminator_stripTrailing_append_space {s : List Char} {c : Char}
    (h : isSpaceChar c = true) : stripTrailing (s ++ [c]) = stripTrailing s := by
  simp [stripTrailing, List.reverse_append, List.dropWhile_cons, h]

lemma endsInTerminator_stripChars {s : List Char}
    (h : endsInTerminator (stripTrailing s) = true) :
    endsInTerminator (stripChars s) = true := by
  unfold endsInTerminator stripTrailing at h
  rw [List.reverse_reverse] at h
  unfold endsInTerminator stripChars
  rw [List.reverse_reverse]
  have hsplit := List.takeWhile_append_dropWhile (p := isSpaceChar) (l := s)
  have hrev : s.reverse
      = (s.dropWhile isSpaceChar).reverse ++ (s.takeWhile isSpaceChar).reverse := by
    conv_lhs => rw [← hsplit]
    rw [List.reverse_append]
  rw [hrev, List.dropWhile_append] at h
  by_cases he : (List.dropWhile isSpaceChar (s.dropWhile isSpaceChar).reverse).isEmpty = true
  · rw [if_pos he] at h
    have htake : List.dropWhile isSpaceChar (s.takeWhile isSpaceChar).reverse = [] := by
      rw [List.dropWhile_eq_nil_iff]
      intro x hx
      exact List.mem_takeWhile_imp (List.mem_reverse.mp hx)
    rw [htake] at h
    exact absurd h (by simp [headTerm])
  · rw [if_neg he] at h
    cases hd : List.dropWhile isSpaceChar (s.dropWhile isSpaceChar).reverse with
    | nil => rw [hd] at he; simp at he
    | cons d ds =>
      rw [hd] at h
      simpa [headTerm] using h

lemma mem_stripChars_subset {c : Char} {l : List Char}
    (h : c ∈ stripChars l) : c ∈ l := by
  unfold stripChars at h
  rw [List.mem_reverse] at h
  have h1 := (List.dropWhile_sublist (l := (l.dropWhile isSpaceChar).reverse)
    isSpaceChar).mem h
  rw [List.mem_reverse] at h1
  exact (List.dropWhile_sublist (l := l) isSpaceChar).mem h1

/-- The invariant carried by the scanner mode: in text mode the pending
slice has no terminator yet; in terminator mode the prospective sentence
ends in a terminator; in whitespace mode it ends in a terminator once
trailing whitespace is dropped. -/
def modeOK : ScanMode → Prop
  | .text p => ∀ c ∈ p, isTerminator c = false
  | .term s => endsInTerminator s = true
  | .ws s => endsInTerminator (stripTrailing s) = true

lemma scanSentences_spec (l : List Char) : ∀ mode, modeOK mode →
    (∀ out ∈ (scanSentences mode l).1, endsInTerminator out = true) ∧
    (∀ c ∈ (scanSentences mode l).2, isTerminator c = false) := by
  induction l with
  | nil =>
    intro mode hm
    cases mode with
    | text p =>
      refine ⟨by simp [scanSentences], ?_⟩
      simpa [scanSentences] using hm
    | term s =>
      refine ⟨?_, by simp [scanSentences]⟩
      intro out hout
      simp only [scanSentences] at hout
      by_cases hs : stripChars s = []
      · rw [if_pos hs] at hout; simp at hout
      · rw [if_neg hs] at hout
        simp only [List.mem_singleton] at hout
        subst hout
        exact endsInTerminator_stripChars (endsInTerminator_stripTrailing hm)
    | ws s =>
      refine ⟨?_, by simp [scanSentences]⟩
      intro out hout
      simp only [scanSentences] at hout
      by_cases hs : stripChars s = []
      · rw [if_pos hs] at hout; simp at hout
      · rw [if_neg hs] at hout
        simp only [List.mem_singleton] at hout
        subst hout
        exact endsInTerminator_stripChars hm
  | cons c rest ih =>
    intro mode hm
    cases mode with
    | text p =>
      by_cases ht : isTerminator c = true
      · simp only [scanSentences, ht, if_true]
        exact ih (.term (p ++ [c])) (endsInTerminator_append_term ht)
      · simp only [scanSentences, ht, if_false]
        refine ih (.text (p ++ [c])) ?_
        intro x hx
        rcases List.mem_append.mp hx with hx | hx
        · exact hm x hx
        · simp only [List.mem_singleton] at hx
          subst hx
          simpa using ht
    | term s =>
      by_cases ht : isTerminator c = true
      · simp only [scanSentences, ht, if_true]
        exact ih (.term (s ++ [c])) (endsInTerminator_append_term ht)
      · by_cases hsp : isSpaceChar c = true
        · simp only [scanSentences, ht, hsp, if_false, if_true]
          refine ih (.ws (s ++ [c])) ?_
          show endsInTerminator (stripTrailing (s ++ [c])) = true
          rw [endsInTerminator_stripTrailing_append_space hsp]
          exact endsInTerminator_stripTrailing hm
        · simp only [scanSentences, ht, hsp, if_false]
          have hrest := ih (.text [c]) (by
            intro x hx
            simp only [List.mem_singleton] at hx
            subst hx
            simpa using ht)
          refine ⟨?_, hrest.2⟩
          intro out hout
          rcases List.mem_append.mp hout with hout | hout
          · by_cases hs : stripChars s = []
            · rw [if_pos hs] at hout; simp at hout
            · rw [if_neg hs] at hout
              simp only [List.mem_singleton] at hout
              subst hout
              exact endsInTerminator_stripChars (endsInTerminator_stripTrailing hm)
          · exact hrest.1 out hout
    | ws s =>
      by_cases hsp : isSpaceChar c = true
      · simp only [scanSentences, hsp, if_true]
        refine ih (.ws (s ++ [c])) ?_
        show endsInTerminator (stripTrailing (s ++ [c])) = true
        rw [endsInTerminator_stripTrailing_append_space hsp]
        exact hm
      · by_cases ht : isTerminator c = true
        · simp only [scanSentences, hsp, ht, if_false, if_true]
          have hrest := ih (.term [c]) (by
            show endsInTerminator [c] = true
            simpa [endsInTerminator, headTerm] using ht)
          refine ⟨?_, hrest.2⟩
          intro out hout
          rcases List.mem_append.mp hout with hout | hout
          · by_cases hs : stripChars s = []
            · rw [if_pos hs] at hout; simp at hout
            · rw [if_neg hs] at hout
              simp only [List.mem_singleton] at hout
              subst hout
              exact endsInTerminator_stripChars hm
          · exact hrest.1 out hout
        · simp only [scanSentences, hsp, ht, if_false]
          have hrest := ih (.text [c]) (by
            intro x hx
            simp only [List.mem_singleton] at hx
            subst hx
            simpa using ht)
          refine ⟨?_, hrest.2⟩
          intro out hout
          rcases List.mem_append.mp hout with hout | hout
          · by_cases hs : stripChars s = []
            · rw [if_pos hs] at hout; simp at hout
            · rw [if_neg hs] at hout
              simp only [List.mem_singleton] at hout
              subst hout
              exact endsInTerminator_stripChars hm
          · exact hrest.1 out hout

/-! ## Claims about the segmenter (C1–C3) -/

/-- Claim C1, code-bug exhibit.  Fragment-by-fragment segmentation with the
carried remainder does *not* agree with whole-text segmentation modulo
whitespace trimming: `extract_sentences` strips the remainder it returns,
so whitespace interior to an unfinished sentence is lost at a fragment
boundary.  On the fragments `"A. B "`, `"C."` the streaming pipeline
emits `["A.", "BC."]` while the whole text `"A. B C."` segments to
`["A.", "B C."]` — the two lists differ beyond trimming (an interior
space has vanished). -/
theorem segmentStream_ne_segmentWhole :
    segmentStream ["A. B ".toList, "C.".toList] = ["A.".toList, "BC.".toList] ∧
    segmentWhole ("A. B ".toList ++ "C.".toList) = ["A.".toList, "B C.".toList] ∧
    segmentStream ["A. B ".toList, "C.".toList] ≠
      segmentWhole ("A. B ".toList ++ "C.".toList) :=
  ⟨by decide, by decide, by decide⟩

/-- Claim C2, code-bug exhibit.  On the specified scenario — fragments
`"The sky is "`, `"blue. It is "`, `"also vast."` with `done` on the
last — the full answer is `"The sky is blue. It is also vast."` as the
claim says, but the sentences pushed to the TTS queue are
`"The sky isblue."` and `"It isalso vast."` (the trailing space of each
carried remainder was stripped), not the claimed
`"The sky is blue."` / `"It is also vast."`. -/
theorem streaming_scenario_glues_words :
    runStream true
      [.line (some ⟨some "The sky is ".toList, false⟩),
       .line (some ⟨some "blue. It is ".toList, false⟩),
       .line (some ⟨some "also vast.".toList, true⟩)] =
      .ok ("The sky is blue. It is also vast.".toList,
           ["The sky isblue.".toList, "It isalso vast.".toList]) ∧
    ["The sky isblue.".toList, "It isalso vast.".toList] ≠
      ["The sky is blue.".toList, "It is also vast.".toList] :=
  ⟨by rfl, by decide⟩

/-- Claim C3, counterexample.  The claim says no sentence boundary is
detected when a terminator run is immediately followed by a
non-whitespace character, e.g. inside `"3.14"`.  The regex
`[.!?]+[\s\n]*` requires only *zero or more* whitespace characters, so
the code does split `"3.14"`: it emits the sentence `"3."` and keeps
`"14"` as the remainder. -/
theorem extract_sentences_splits_number :
    extract_sentences "3.14".toList = (["3.".toList], "14".toList) ∧
    (extract_sentences "3.14".toList).1 ≠ [] :=
  ⟨by decide, by decide⟩

/-- Claim C3, amended.  The segmenter emits a sentence at every maximal
run of `.`/`!`/`?` followed by a (possibly empty) run of whitespace —
even when a non-whitespace character follows the run directly, as in
`"3.14"`.  Every emitted sentence is non-empty and ends in a terminator
character, and the retained remainder contains no terminator at all. -/
theorem extract_sentences_boundary_spec (buf : List Char) :
    (∀ s ∈ (extract_sentences buf).1, s ≠ [] ∧ endsInTerminator s = true) ∧
    (∀ c ∈ (extract_sentences buf).2, isTerminator c = false) := by
  have h := scanSentences_spec buf (.text []) (by intro c hc; simp at hc)
  constructor
  · intro s hs
    have h1 := h.1 s (by simpa [extract_sentences] using hs)
    exact ⟨ne_nil_of_endsInTerminator h1, h1⟩
  · intro c hc
    have hc1 : c ∈ stripChars (scanSentences (.text []) buf).2 := by
      simpa [extract_sentences] using hc
    exact h.2 c (mem_stripChars_subset hc1)

/-- Witness for `extract_sentences_boundary_spec` at the buffer
`"Hi! yo"`: the emitted sentence `"Hi!"` ends in a terminator and the
remainder character `'y'` is not a terminator. -/
theorem extract_sentences_boundary_spec_witness :
    ("Hi!".toList ≠ [] ∧ endsInTerminator "Hi!".toList = true) ∧
    isTerminator 'y' = false :=
  ⟨(extract_sentences_boundary_spec "Hi! yo".toList).1 "Hi!".toList (by decide),
   (extract_sentences_boundary_spec "Hi! yo".toList).2 'y' (by decide)⟩

/-! ## Claims about `ConversationMemory` (C4, C5, C7) -/

/-- Claim C4, code-bug exhibit.  A memory constructed with maximum count
`M = 2` and given `M + 1 = 3` calls of `add_exchange` retains a single
exchange (the newest one), not `M = 2`: the code bounds the flattened
role/content message list — two entries per exchange — by `max_history`,
so the capacity is `⌊M/2⌋` exchanges. -/
theorem add_exchange_bounds_messages_not_exchanges :
    (addExchanges (memoryInit none 2 0)
      [("u1".toList, "a1".toList), ("u2".toList, "a2".toList),
       ("u3".toList, "a3".toList)]).map (fun m => m.conversation_history) =
      some (.jarr [mkMessage "user".toList "u3".toList,
                   mkMessage "assistant".toList "a3".toList]) ∧
    [mkMessage "user".toList "u3".toList,
     mkMessage "assistant".toList "a3".toList].length / 2 = 1 ∧ (1 : Nat) ≠ 2 :=
  ⟨by rfl, by rfl, by decide⟩

/-- Claim C5.  Saving a memory and loading the produced object back
reproduces the original system prompt and the original exchange
sequence, whatever the surrounding state and timestamps. -/
theorem save_load_roundtrip (m s0 : ConversationMemory) (now now2 : Nat) :
    (load_memory s0 (.contents (save_memory m now)) now2).2.system_prompt
        = m.system_prompt ∧
    (load_memory s0 (.contents (save_memory m now)) now2).2.conversation_history
        = m.conversation_history := by
  obtain ⟨sp, hist, mh, t⟩ := m
  cases hist <;> exact ⟨rfl, rfl⟩

/-- Claim C7, counterexample.  A well-formed JSON object whose
`conversation_history` field is a number is a malformed memory file: the
load reports failure (`False`, after the `len()` call raises), yet by
then `system_prompt` and `conversation_history` have already been
overwritten — the pre-existing state is not preserved. -/
theorem load_memory_partial_overwrite :
    (load_memory (memoryInit none 50 0)
       (.contents (.jobj [("system_prompt".toList, .jstr "x".toList),
                          ("conversation_history".toList, .jnum 7)])) 5).1 = false ∧
    (load_memory (memoryInit none 50 0)
       (.contents (.jobj [("system_prompt".toList, .jstr "x".toList),
                          ("conversation_history".toList, .jnum 7)])) 5).2.conversation_history
      = .jnum 7 ∧
    (memoryInit none 50 0).conversation_history = .jarr [] ∧
    JVal.jnum 7 ≠ JVal.jarr [] :=
  ⟨rfl, rfl, rfl, fun h => JVal.noConfusion h⟩

/-- Claim C7, amended.  When the memory file is missing or its contents
fail to parse as JSON, `load_memory` reports the failure and leaves the
in-memory state (system prompt, exchange sequence and start time)
completely unchanged; a *parseable* object with a wrong-typed history
field can instead fail only after partially overwriting the state. -/
theorem load_memory_unparseable_preserves_state (m : ConversationMemory) (now : Nat)
    (file : FileRead) (h : file = .missing ∨ file = .parseError) :
    load_memory m file now = (false, m) := by
  rcases h with h | h <;> subst h <;> rfl

/-- Witness for `load_memory_unparseable_preserves_state` on a missing
file. -/
theorem load_memory_unparseable_preserves_state_witness :
    load_memory (memoryInit none 50 0) .missing 3 = (false, memoryInit none 50 0) :=
  load_memory_unparseable_preserves_state (memoryInit none 50 0) 3 .missing (Or.inl rfl)

/-! ## Claim C6: transport failure and the partial answer -/

/-- A stream event that neither raises nor ends the loop: a skipped
undecodable line, or a decoded chunk with `done = False`. -/
def notTerminating : StreamEvent → Bool
  | .transportError _ => false
  | .line none => true
  | .line (some chunk) => !chunk.done

lemma streamLoop_transport_error (msg : List Char) (pre : List StreamEvent) :
    ∀ (speaking : Bool) (full buf : List Char) (spoken : List (List Char)),
    pre.all notTerminating = true →
    streamLoop speaking full buf spoken (pre ++ [.transportError msg]) =
      .error ("API request failed: ".toList ++ msg) := by
  induction pre with
  | nil => intro speaking full buf spoken _; rfl
  | cons e rest ih =>
    intro speaking full buf spoken hall
    rw [List.all_cons, Bool.and_eq_true] at hall
    cases e with
    | transportError m => simp [notTerminating] at hall
    | line oc =>
      cases oc with
      | none =>
        rw [List.cons_append]
        show streamLoop speaking full buf spoken (rest ++ [.transportError msg]) = _
        exact ih speaking full buf spoken hall.2
      | some chunk =>
        have hdone : chunk.done = false := by
          simpa [notTerminating] using hall.1
        rw [List.cons_append]
        simp only [streamLoop, hdone, Bool.false_eq_true, if_false]
        exact ih speaking _ _ _ hall.2

/-- Claim C6, counterexample.  After receiving `"Partial resul"` a
transport failure ends the turn: the code re-raises
`Exception("API request failed: ...")` and the accumulated text is
*not* part of what the caller receives — contrary to the claim that the
partial answer is returned. -/
theorem transport_error_loses_partial_text :
    runStream true [.line (some ⟨some "Partial resul".toList, false⟩),
                    .transportError "connection reset".toList] =
      .error ("API request failed: connection reset".toList) ∧
    ¬ ("Partial resul".toList <:+: "API request failed: connection reset".toList) :=
  ⟨by rfl, by decide⟩

/-- Claim C6, amended.  A streaming turn that ends in a transport-level
failure raises an `API request failed` error that carries only the
transport error's message: whatever answer text was accumulated before
the failure is discarded, not returned to the caller. -/
theorem transport_error_discards_partial_answer (speaking : Bool)
    (pre : List StreamEvent) (msg : List Char)
    (h : pre.all notTerminating = true) :
    runStream speaking (pre ++ [.transportError msg]) =
      .error ("API request failed: ".toList ++ msg) :=
  streamLoop_transport_error msg pre speaking [] [] [] h

/-- Witness for `transport_error_discards_partial_answer`: a concrete
turn with one ordinary fragment before the failure. -/
theorem transport_error_discards_partial_answer_witness :
    runStream true ([.line (some ⟨some "Hello wor".toList, false⟩)] ++
        [.transportError "boom".toList]) =
      .error ("API request failed: ".toList ++ "boom".toList) :=
  transport_error_discards_partial_answer true
    [.line (some ⟨some "Hello wor".toList, false⟩)] "boom".toList (by decide)

/-! ## Claims about the TTS worker (C8, C9) -/

lemma dropWhile_eq_self_of_prefix {α : Type} {p : α → Bool} {x y : List α}
    (hx : List.dropWhile p x = x) (hyx : y <+: x) : List.dropWhile p y = y := by
  cases y with
  | nil => rfl
  | cons c t =>
    obtain ⟨r, hr⟩ := hyx
    have hpc : p c = false := by
      by_contra hne
      have hpc' : p c = true := by
        cases hb : p c
        · exact absurd hb hne
        · rfl
      have hx' : List.dropWhile p x = List.dropWhile p (t ++ r) := by
        rw [← hr, List.cons_append, List.dropWhile_cons, hpc']
        simp
      have hlen := (List.dropWhile_sublist (l := t ++ r) p).length_le
      rw [← hx', hx, ← hr] at hlen
      simp only [List.cons_append, List.length_cons, List.length_append] at hlen
      omega
    rw [List.dropWhile_cons, hpc]
    simp

lemma stripChars_idempotent (l : List Char) :
    stripChars (stripChars l) = stripChars l := by
  unfold stripChars
  set A := l.dropWhile isSpaceChar with hA
  set B := List.dropWhile isSpaceChar A.reverse with hB
  have h1 : List.dropWhile isSpaceChar B.reverse = B.reverse := by
    refine dropWhile_eq_self_of_prefix (x := A) ?_ ?_
    · rw [hA]
      exact List.dropWhile_idempotent isSpaceChar l
    · have hsuf : B <:+ A.reverse := List.dropWhile_suffix isSpaceChar
      have := hsuf.reverse
      rwa [List.reverse_reverse] at this
  rw [h1, List.reverse_reverse, hB,
    List.dropWhile_idempotent isSpaceChar A.reverse]

lemma stripChars_ne_nil_of_stripped {t : List Char} (h : stripChars t ≠ []) :
    stripChars (stripChars t) ≠ [] := by
  rwa [stripChars_idempotent]

/-- The job the worker has popped but not yet rendered, as a list. -/
def inflightPending : WorkerPC → List (List Char)
  | .doRender t => [t]
  | _ => []

/-- How many popped jobs have not yet had `task_done()` called. -/
def inflightCount : WorkerPC → Nat
  | .doRender _ => 1
  | .atTaskDone => 1
  | _ => 0

/-- Every text in the queue is a non-empty stripped string (that is what
`speak_text_immediate` enqueues). -/
def jobWF (t : List Char) : Prop := t ≠ [] ∧ stripChars t ≠ []

/-- The global invariant tying the ghost logs to the queue and the
worker: everything ever pushed is exactly what was rendered, plus the
popped-but-unrendered job, plus the queue; `unfinished_tasks` counts the
queue plus the popped-but-not-`task_done` job; and all pending jobs are
well-formed. -/
def ttsInv (s : TTSState) : Prop :=
  s.pushed = s.rendered ++ inflightPending s.pc ++ s.queue ∧
  s.unfinished = s.queue.length + inflightCount s.pc ∧
  (∀ t ∈ s.queue, jobWF t) ∧
  (∀ t, s.pc = .doRender t → jobWF t)

lemma ttsInv_init : ttsInv initTTS := by
  refine ⟨rfl, rfl, ?_, ?_⟩
  · intro t ht
    simp [initTTS] at ht
  · intro t ht
    simp [initTTS] at ht

lemma ttsStep_inv {s s1 : TTSState} {l : TLabel} (hl : l ≠ .purgeOne)
    (h : ttsStep s l = some s1) (hinv : ttsInv s) : ttsInv s1 := by
  obtain ⟨q, unf, se, pc, rnd, psh⟩ := s
  simp only [ttsInv] at hinv
  obtain ⟨h1, h2, h3, h4⟩ := hinv
  cases l with
  | push t =>
    by_cases hc : stripChars t = []
    · simp [ttsStep, hc] at h
      rw [← h]
      exact ⟨h1, h2, h3, h4⟩
    · simp [ttsStep, hc] at h
      rw [← h]
      refine ⟨?_, ?_, ?_, h4⟩
      · show psh ++ [stripChars t] = rnd ++ inflightPending pc ++ (q ++ [stripChars t])
        rw [h1]
        simp [List.append_assoc]
      · show unf + 1 = (q ++ [stripChars t]).length + inflightCount pc
        rw [h2, List.length_append]
        simp only [List.length_cons, List.length_nil]
        omega
      · intro u hu
        rcases List.mem_append.mp hu with hu | hu
        · exact h3 u hu
        · simp only [List.mem_singleton] at hu
          subst hu
          exact ⟨hc, stripChars_ne_nil_of_stripped hc⟩
  | wCheck =>
    cases pc <;> simp [ttsStep] at h
    case atCheck =>
      rw [← h]
      simp only [inflightPending, inflightCount, List.append_nil] at h1 h2
      cases se <;>
        exact ⟨by simpa [inflightPending] using h1,
               by simpa [inflightCount] using h2, h3,
               by intro u hu; simp [inflightPending] at hu⟩
  | wGet =>
    cases pc <;> simp [ttsStep] at h
    case atGet =>
      simp only [inflightPending, inflightCount, List.append_nil] at h1 h2
      cases q with
      | nil =>
        simp at h
        rw [← h]
        exact ⟨by simpa [inflightPending] using h1,
               by simpa [inflightCount] using h2,
               h3, by intro u hu; simp [inflightPending] at hu⟩
      | cons t rest =>
        simp at h
        rw [← h]
        refine ⟨?_, ?_, ?_, ?_⟩
        · show psh = rnd ++ inflightPending (.doRender t) ++ rest
          rw [h1]
          simp [inflightPending]
        · show unf = rest.length + inflightCount (.doRender t)
          rw [h2]
          simp [inflightCount, List.length_cons]
        · intro u hu
          exact h3 u (List.mem_cons_of_mem _ hu)
        · intro u hu
          simp only [inflightPending, WorkerPC.doRender.injEq] at hu
          subst hu
          exact h3 t (List.mem_cons_self _ _)
  | wRender =>
    cases pc <;> simp [ttsStep] at h
    case doRender t =>
      have hwf : jobWF t := h4 t rfl
      rw [← h]
      refine ⟨?_, ?_, h3, ?_⟩
      · show psh = (rnd ++ (if t ≠ [] ∧ stripChars t ≠ [] then [t] else []))
            ++ inflightPending .atTaskDone ++ q
        have hwf1 : t ≠ [] ∧ stripChars t ≠ [] := hwf
        rw [if_pos hwf1, h1]
        simp [inflightPending]
      · show unf = q.length + inflightCount .atTaskDone
        simp only [inflightCount] at h2 ⊢
        exact h2
      · intro u hu
        simp [inflightPending] at hu
  | wDone =>
    cases pc <;> simp [ttsStep] at h
    case atTaskDone =>
      rw [← h]
      refine ⟨?_, ?_, h3, ?_⟩
      · show psh = rnd ++ inflightPending .atCheck ++ q
        simpa [inflightPending] using h1
      · show unf - 1 = q.length + inflightCount .atCheck
        simp only [inflightCount] at h2 ⊢
        omega
      · intro u hu
        simp [inflightPending] at hu
  | start =>
    by_cases ha : workerAlive pc = true
    · simp [ttsStep, ha] at h
      rw [← h]
      exact ⟨h1, h2, h3, h4⟩
    · simp [ttsStep, ha] at h
      have hpend : inflightPending pc = [] ∧ inflightCount pc = 0 := by
        cases pc <;> first
          | exact ⟨rfl, rfl⟩
          | simp [workerAlive] at ha
      rw [← h]
      refine ⟨?_, ?_, h3, ?_⟩
      · show psh = rnd ++ inflightPending .atCheck ++ q
        rw [h1, hpend.1]
        simp [inflightPending]
      · show unf = q.length + inflightCount .atCheck
        rw [h2, hpend.2]
        simp [inflightCount]
      · intro u hu
        simp [inflightPending] at hu
  | stopSet =>
    simp only [ttsStep, Option.some.injEq] at h
    rw [← h]
    exact ⟨h1, h2, h3, h4⟩
  | purgeOne => exact absurd rfl hl
  | drainJoin =>
    by_cases hu : unf = 0
    · simp [ttsStep, hu] at h
      rw [← h]
      exact ⟨h1, hu ▸ h2, h3, h4⟩
    · simp [ttsStep, hu] at h

lemma ttsStep_dead {s s1 : TTSState} {l : TLabel} (hpc : s.pc = .dead)
    (hl : l ≠ .start) (h : ttsStep s l = some s1) :
    s1.pc = .dead ∧ s1.rendered = s.rendered := by
  obtain ⟨q, unf, se, pc, rnd, psh⟩ := s
  simp only at hpc
  subst hpc
  cases l with
  | push t =>
    by_cases hc : stripChars t = []
    · simp [ttsStep, hc] at h
      rw [← h]
      exact ⟨rfl, rfl⟩
    · simp [ttsStep, hc] at h
      rw [← h]
      exact ⟨rfl, rfl⟩
  | wCheck => simp [ttsStep] at h
  | wGet => simp [ttsStep] at h
  | wRender => simp [ttsStep] at h
  | wDone => simp [ttsStep] at h
  | start => exact absurd rfl hl
  | stopSet =>
    simp [ttsStep] at h
    rw [← h]
    exact ⟨rfl, rfl⟩
  | purgeOne =>
    cases q with
    | nil => simp [ttsStep] at h
    | cons t rest =>
      simp [ttsStep] at h
      rw [← h]
      exact ⟨rfl, rfl⟩
  | drainJoin =>
    by_cases hu : unf = 0
    · simp [ttsStep, hu] at h
      rw [← h]
      exact ⟨rfl, rfl⟩
    · simp [ttsStep, hu] at h

lemma runTrace_dead (ls : List TLabel) :
    ∀ s s2 : TTSState, s.pc = .dead → TLabel.start ∉ ls →
      runTrace s ls = some s2 → s2.rendered = s.rendered ∧ s2.pc = .dead := by
  induction ls with
  | nil =>
    intro s s2 hpc _ hr
    simp only [runTrace, List.foldlM_nil, pure, Option.some.injEq] at hr
    rw [← hr]
    exact ⟨rfl, hpc⟩
  | cons l rest ih =>
    intro s s2 hmem hr hinv
    rw [List.mem_cons, not_or] at hr
    rw [runTrace, List.foldlM_cons] at hinv
    cases hstep : ttsStep s l with
    | none => rw [hstep] at hinv; exact absurd hinv (by simp)
    | some s1 =>
      rw [hstep] at hinv
      have hd := ttsStep_dead hmem (fun he => hr.1 (he ▸ rfl)) hstep
      have := ih s1 s2 hd.1 hr.2 hinv
      exact ⟨this.1.trans hd.2, this.2⟩

lemma runTrace_inv (ls : List TLabel) :
    ∀ s s2 : TTSState, TLabel.purgeOne ∉ ls → runTrace s ls = some s2 →
      ttsInv s → ttsInv s2 := by
  induction ls with
  | nil =>
    intro s s2 _ hr hinv
    simp only [runTrace, List.foldlM_nil, pure, Option.some.injEq] at hr
    rwa [← hr]
  | cons l rest ih =>
    intro s s2 hmem hr hinv
    rw [List.mem_cons, not_or] at hmem
    rw [runTrace, List.foldlM_cons] at hr
    cases hstep : ttsStep s l with
    | none => rw [hstep] at hr; exact absurd hr (by simp)
    | some s1 =>
      rw [hstep] at hr
      exact ih s1 s2 hmem.2 hr
        (ttsStep_inv (fun he => hmem.1 (he ▸ rfl)) hstep hinv)

/-- Claim C8, counterexample.  A job that is still *queued* (not
in-flight) at the moment `stop_tts_thread()` sets the stop event can
nevertheless be rendered: the worker passed its stop-event check before
the event was set, and dequeues the job before the purge loop runs.
First conjunct: after `start`, one check, and a push, the job `"a"` is
queued, the worker is about to `get`, and nothing was rendered.  Second
conjunct: continuing with `stopSet` followed by the worker's steps, the
worker renders `"a"` and only then observes the stop event and dies. -/
theorem stop_tts_queued_job_still_rendered :
    (runTrace initTTS [.start, .wCheck, .push "a".toList]).map
        (fun s => (s.queue, s.pc, s.rendered)) =
      some (["a".toList], WorkerPC.atGet, []) ∧
    (runTrace initTTS [.start, .wCheck, .push "a".toList, .stopSet,
        .wGet, .wRender, .wDone, .wCheck]).map
        (fun s => (s.pc, s.rendered, s.queue)) =
      some (WorkerPC.dead, ["a".toList], []) :=
  ⟨by rfl, by rfl⟩

/-- Claim C8, amended.  Starting an already-running worker is a no-op
(first conjunct); and once the worker has observed the stop event and
exited its loop, no further job is ever rendered unless the worker is
started again (second conjunct).  However — as the counterexample
shows — a job the worker dequeues between the stop signal and the purge
loop may still be rendered, and `stop_tts_thread` waits at most the
1-second `join` timeout, so an in-flight render can outlive the stop
call. -/
theorem start_stop_semantics :
    (∀ s : TTSState, workerAlive s.pc = true → ttsStep s .start = some s) ∧
    (∀ (ls : List TLabel) (s s2 : TTSState), s.pc = .dead →
      TLabel.start ∉ ls → runTrace s ls = some s2 →
      s2.rendered = s.rendered ∧ s2.pc = .dead) := by
  constructor
  · intro s hs
    simp [ttsStep, hs]
  · intro ls s s2 hpc hmem hr
    exact runTrace_dead ls s s2 hpc hmem hr

/-- Witness for `start_stop_semantics`: `start` on a live worker leaves
the state untouched, and a dead worker ignores a pushed job. -/
theorem start_stop_semantics_witness :
    ttsStep { initTTS with pc := .atCheck } .start =
      some { initTTS with pc := .atCheck } ∧
    (({ initTTS with
        pc := .dead, queue := ["x".toList],
        unfinished := 1, pushed := ["x".toList] } : TTSState).rendered
        = ({ initTTS with pc := .dead } : TTSState).rendered ∧
      ({ initTTS with
         pc := .dead, queue := ["x".toList],
         unfinished := 1, pushed := ["x".toList] } : TTSState).pc = .dead) :=
  ⟨start_stop_semantics.1 { initTTS with pc := .atCheck } rfl,
   start_stop_semantics.2 [.push "x".toList] { initTTS with pc := .dead }
     { initTTS with
       pc := .dead, queue := ["x".toList],
       unfinished := 1, pushed := ["x".toList] } rfl (by decide) (by rfl)⟩

lemma runTrace_append_one (s : TTSState) (ls : List TLabel) (l : TLabel) :
    runTrace s (ls ++ [l]) = (runTrace s ls).bind (fun s1 => ttsStep s1 l) := by
  simp only [runTrace]
  rw [List.foldlM_append]
  cases h : List.foldlM ttsStep s ls with
  | none => rfl
  | some s1 =>
    show List.foldlM ttsStep s1 [l] = ttsStep s1 l
    rw [List.foldlM_cons]
    simp only [List.foldlM_nil]
    cases ttsStep s1 l <;> rfl

/-- Claim C9.  `drain_wait` — the `tts_queue.join()` call made by
`ask_ollama_with_context` before it stops the worker — can only return
in a state where *every* job ever pushed has been fully rendered.  A job
that was dequeued but whose render has not completed still counts
against `unfinished_tasks` (its `task_done()` runs only after the render
call returns), so `join` cannot return while it is mid-render; the
guarantee is a join/barrier, not mere queue emptiness.  The hypothesis
excludes the purge steps of `stop_tts_thread`, which the program only
runs after this join has returned. -/
theorem drain_wait_barrier (ls : List TLabel) (s2 : TTSState)
    (hp : TLabel.purgeOne ∉ ls)
    (hr : runTrace initTTS (ls ++ [.drainJoin]) = some s2) :
    s2.pushed = s2.rendered := by
  rw [runTrace_append_one] at hr
  cases h1 : runTrace initTTS ls with
  | none => rw [h1, Option.none_bind] at hr; exact absurd hr (by simp)
  | some s1 =>
    rw [h1, Option.some_bind] at hr
    have hinv : ttsInv s1 := runTrace_inv ls initTTS s1 hp h1 ttsInv_init
    by_cases hu : s1.unfinished = 0
    · have hs : ttsStep s1 .drainJoin = some s1 := by simp [ttsStep, hu]
      rw [hs, Option.some.injEq] at hr
      rw [← hr]
      obtain ⟨i1, i2, _, _⟩ := hinv
      have hq : s1.queue = [] := by
        cases hq : s1.queue with
        | nil => rfl
        | cons a b =>
          rw [hq] at i2
          rw [i2] at hu
          simp [List.length_cons] at hu
      have hcnt : inflightCount s1.pc = 0 := by
        rw [hq] at i2
        rw [i2] at hu
        simpa using hu
      have hpend : inflightPending s1.pc = [] := by
        cases hpc : s1.pc <;> first
          | rfl
          | (rw [hpc] at hcnt; simp [inflightCount] at hcnt)
      rw [i1, hpend, hq]
      simp
    · have hs : ttsStep s1 .drainJoin = none := by simp [ttsStep, hu]
      rw [hs] at hr
      exact absurd hr (by simp)

/-- Witness for `drain_wait_barrier`: a concrete trace that starts the
worker, pushes `"hi"`, renders it to completion and then joins. -/
theorem drain_wait_barrier_witness :
    ({ queue := [], unfinished := 0, stopEvent := false, pc := .atCheck,
       rendered := ["hi".toList], pushed := ["hi".toList] } : TTSState).pushed =
    ({ queue := [], unfinished := 0, stopEvent := false, pc := .atCheck,
       rendered := ["hi".toList], pushed := ["hi".toList] } : TTSState).rendered :=
  drain_wait_barrier [.start, .push "hi".toList, .wCheck, .wGet, .wRender, .wDone]
    { queue := [], unfinished := 0, stopEvent := false, pc := .atCheck,
      rendered := ["hi".toList], pushed := ["hi".toList] }
    (by decide) (by rfl)

/-! ## Claim C10: speed and volume adjustment bounds -/

lemma handle_adjust_bounds {s : AudioSettings} (c : AdjustCmd)
    (h1 : 50 ≤ s.speech_rate) (h2 : s.speech_rate ≤ 300)
    (h3 : 0 ≤ s.volume) (h4 : s.volume ≤ 1) :
    50 ≤ (handle_adjust s c).speech_rate ∧ (handle_adjust s c).speech_rate ≤ 300 ∧
    0 ≤ (handle_adjust s c).volume ∧ (handle_adjust s c).volume ≤ 1 := by
  cases c with
  | faster =>
    exact ⟨le_min (by norm_num) (by linarith), min_le_left _ _, h3, h4⟩
  | slower =>
    exact ⟨le_max_left _ _, max_le (by norm_num) (by linarith), h3, h4⟩
  | louder =>
    exact ⟨h1, h2, le_min (by norm_num) (by linarith), min_le_left _ _⟩
  | quieter =>
    exact ⟨h1, h2, le_max_left _ _, max_le (by norm_num) (by linarith)⟩

lemma handleAdjustSeq_bounds (cmds : List AdjustCmd) :
    ∀ s0 : AudioSettings,
    50 ≤ s0.speech_rate → s0.speech_rate ≤ 300 → 0 ≤ s0.volume → s0.volume ≤ 1 →
    50 ≤ (handleAdjustSeq s0 cmds).speech_rate ∧
      (handleAdjustSeq s0 cmds).speech_rate ≤ 300 ∧
      0 ≤ (handleAdjustSeq s0 cmds).volume ∧ (handleAdjustSeq s0 cmds).volume ≤ 1 := by
  induction cmds with
  | nil => intro s0 h1 h2 h3 h4; exact ⟨h1, h2, h3, h4⟩
  | cons c rest ih =>
    intro s0 h1 h2 h3 h4
    have hstep := handle_adjust_bounds c h1 h2 h3 h4
    exact ih (handle_adjust s0 c) hstep.1 hstep.2.1 hstep.2.2.1 hstep.2.2.2

/-- Claim C10.  The `faster`/`slower`/`louder`/`quieter` commands preserve
the bounds invariants: from a state with rate in `[50, 300]` and volume
in `[0, 1]` (the defaults 175 and 1.0 qualify), any command sequence
keeps the rate in `[50, 300]` and the volume in `[0, 1]`; moreover each
step adjusts the rate by exactly 25 and the volume by exactly 0.1
whenever the adjusted value does not hit the clamp. -/
theorem adjust_commands_preserve_bounds :
    (∀ (s0 : AudioSettings) (cmds : List AdjustCmd),
      50 ≤ s0.speech_rate → s0.speech_rate ≤ 300 →
      0 ≤ s0.volume → s0.volume ≤ 1 →
      50 ≤ (handleAdjustSeq s0 cmds).speech_rate ∧
        (handleAdjustSeq s0 cmds).speech_rate ≤ 300 ∧
        0 ≤ (handleAdjustSeq s0 cmds).volume ∧
        (handleAdjustSeq s0 cmds).volume ≤ 1) ∧
    (∀ s : AudioSettings, s.speech_rate + 25 ≤ 300 →
      (handle_adjust s .faster).speech_rate = s.speech_rate + 25) ∧
    (∀ s : AudioSettings, 50 ≤ s.speech_rate - 25 →
      (handle_adjust s .slower).speech_rate = s.speech_rate - 25) ∧
    (∀ s : AudioSettings, s.volume + 1/10 ≤ 1 →
      (handle_adjust s .louder).volume = s.volume + 1/10) ∧
    (∀ s : AudioSettings, 0 ≤ s.volume - 1/10 →
      (handle_adjust s .quieter).volume = s.volume - 1/10) := by
  refine ⟨?_, ?_, ?_, ?_, ?_⟩
  · intro s0 cmds h1 h2 h3 h4
    exact handleAdjustSeq_bounds cmds s0 h1 h2 h3 h4
  · intro s h
    exact min_eq_right h
  · intro s h
    exact max_eq_right h
  · intro s h
    exact min_eq_right h
  · intro s h
    exact max_eq_right h

/-- Witness for `adjust_commands_preserve_bounds` at the default
settings (rate 175, volume 1.0) and a concrete command sequence. -/
theorem adjust_commands_preserve_bounds_witness :
    (50 ≤ (handleAdjustSeq ⟨175, 1⟩ [.faster, .quieter, .slower]).speech_rate ∧
      (handleAdjustSeq ⟨175, 1⟩ [.faster, .quieter, .slower]).speech_rate ≤ 300 ∧
      0 ≤ (handleAdjustSeq ⟨175, 1⟩ [.faster, .quieter, .slower]).volume ∧
      (handleAdjustSeq ⟨175, 1⟩ [.faster, .quieter, .slower]).volume ≤ 1) ∧
    (handle_adjust ⟨175, 1⟩ .faster).speech_rate = 175 + 25 ∧
    (handle_adjust ⟨175, 1⟩ .slower).speech_rate = 175 - 25 ∧
    (handle_adjust ⟨175, 1/2⟩ .louder).volume = 1/2 + 1/10 ∧
    (handle_adjust ⟨175, 1/2⟩ .quieter).volume = 1/2 - 1/10 :=
  ⟨adjust_commands_preserve_bounds.1 ⟨175, 1⟩ [.faster, .quieter, .slower]
     (by norm_num) (by norm_num) (by norm_num) (by norm_num),
   adjust_commands_preserve_bounds.2.1 ⟨175, 1⟩ (by norm_num),
   adjust_commands_preserve_bounds.2.2.1 ⟨175, 1⟩ (by norm_num),
   adjust_commands_preserve_bounds.2.2.2.1 ⟨175, 1/2⟩ (by norm_num),
   adjust_commands_preserve_bounds.2.2.2.2 ⟨175, 1/2⟩ (by norm_num)⟩

end Sollama
